import Mathlib

/-!
A shallow embedding of `pkg/testkit/fixtures.go` (package `testkit` of the
`legrch/testkit` repository) and proofs about it.

Modelling conventions:

* Go's `map[string]T` is represented by an association list
  `List (String × T)`.  Wherever the Go code *iterates* over a map (whose
  iteration order Go leaves unspecified and randomizes at runtime), the
  order of the association list stands for the iteration order that this
  particular run happened to observe; two runs over the same map are two
  association lists that are permutations of each other (with no duplicate
  keys).  Wherever the Go code only performs keyed lookups or keyed
  assignments, the list is used through `lookupKV` / `insertKV`, whose
  results do not depend on that order.
* Dynamically typed record values (`any`) become the inductive `Value`.
  `time.Now()` is modelled by a `now : Nat` instant supplied to the load
  call and embedded as `Value.time now`.
* The `database/sql` boundary is abstract: a transaction accumulates the
  statements it successfully executed, and `Commit` appends them to the
  log `DB.committed`.  Failures of `Begin`, `Exec` and `Commit` are
  injected through the oracle `TxEnv`; a failed or rolled-back
  transaction leaves `DB` unchanged.
* File reading plus YAML decoding of `LoadYAMLFixtures` is modelled by an
  `Option TableFixtures` argument (`none` = read/decode failure), and a
  directory listing by a list of `DirEntry` values carrying the decoded
  content of each file.
-/

namespace Testkit

/-- A dynamically typed scalar record value (Go `any`). -/
inductive Value where
  | str (s : String)
  | int (n : Int)
  | bool (b : Bool)
  | time (t : Nat)
  | null
deriving DecidableEq

/-- Go `map[string]any` for one fixture record; the list order is the
iteration order observed by the current run. -/
abbrev Record := List (String × Value)

/-- First-match lookup in an association list (Go map read `m[k]`). -/
def lookupKV {α : Type} : List (String × α) → String → Option α
  | [], _ => none
  | (k, v) :: rest, key => if k = key then some v else lookupKV rest key

/-- Keyed assignment in an association list (Go map write `m[k] = v`):
overwrite the first binding of the key, or append a new one. -/
def insertKV {α : Type} : List (String × α) → String → α → List (String × α)
  | [], key, v => [(key, v)]
  | (k, w) :: rest, key, v =>
    if k = key then (key, v) :: rest else (k, w) :: insertKV rest key v

/-- The decoded content of one fixture file: table name to record list
(Go `TableFixtures`). -/
abbrev TableFixtures := List (String × List Record)

/-- A parameterized SQL statement as handed to `tx.Exec`. -/
structure SQLStmt where
  query : String
  args : List Value
deriving DecidableEq

/-- The database, abstracted as the log of statements of committed
transactions, in commit order. -/
structure DB where
  committed : List SQLStmt
deriving DecidableEq

/-- Failure oracle for one transaction: whether `Begin` succeeds, which
`Exec` calls fail, and whether `Commit` succeeds. -/
structure TxEnv where
  beginOk : Bool
  execFails : SQLStmt → Bool
  commitOk : Bool

/-- The fixture manager state: configured file extensions, per-table
primary-key configuration (`tableConfigs`), and the tracking map
`insertedRecords` (the spec's InsertedKeySet). -/
structure FixtureManager where
  fileExtensions : List String
  tableConfigs : List (String × List String)
  insertedRecords : List (String × List Record)
deriving DecidableEq

/-- Replace the tracking map of a manager, keeping the rest. -/
def setInserted (fm : FixtureManager) (m : List (String × List Record)) : FixtureManager :=
  FixtureManager.mk fm.fileExtensions fm.tableConfigs m

/-- `getPrimaryKeys` of fixtures.go: the configured keys, else `["id"]`. -/
def getPrimaryKeys (fm : FixtureManager) (tableName : String) : List String :=
  match lookupKV fm.tableConfigs tableName with
  | some config => config
  | none => ["id"]

/-- The primary-key tuple of a record (fixtures.go lines 127-133): for
each configured key present in the record, store its raw value in the
`pkValues` map. -/
def pkTuple (primaryKeys : List String) (record : Record) : Record :=
  primaryKeys.foldl
    (fun pkValues pk =>
      match lookupKV record pk with
      | some v => insertKV pkValues pk v
      | none => pkValues)
    []

/-- The tracked key-tuples of one table, `[]` if the table is untracked. -/
def trackingOf (fm : FixtureManager) (tableName : String) : List Record :=
  (lookupKV fm.insertedRecords tableName).getD []

/-- Append one key-tuple for a table in the tracking map, creating the
table's entry if absent (fixtures.go lines 136-141). -/
def updateAppend : List (String × List Record) → String → Record → List (String × List Record)
  | [], tableName, pk => [(tableName, [pk])]
  | (t, rs) :: rest, tableName, pk =>
    if t = tableName then (t, rs ++ [pk]) :: rest
    else (t, rs) :: updateAppend rest tableName pk

/-- Track one record's primary-key tuple if it is non-empty
(fixtures.go lines 126-141). -/
def trackRecord (fm : FixtureManager) (tableName : String) (record : Record) : FixtureManager :=
  let pkValues := pkTuple (getPrimaryKeys fm tableName) record
  if pkValues.isEmpty then fm
  else setInserted fm (updateAppend fm.insertedRecords tableName pkValues)

/-- The special-value substitution of fixtures.go lines 147-157: the
string `"NOW()"` becomes the current time, every other value is bound
unchanged. -/
def substValue (now : Nat) : Value → Value
  | .str s => if s = "NOW()" then .time now else .str s
  | v => v

/-- The positional placeholder `$i`. -/
def placeholder (i : Nat) : String := "$" ++ toString i

/-- The column / placeholder / bound-value lists built by the loop of
fixtures.go lines 143-159, starting at placeholder index `i`. -/
def buildInsert (now : Nat) (i : Nat) : Record → List String × List String × List Value
  | [] => ([], [], [])
  | (column, value) :: rest =>
    let r := buildInsert now (i + 1) rest
    (column :: r.1, placeholder i :: r.2.1, substValue now value :: r.2.2)

/-- The INSERT statement for one record (fixtures.go lines 161-169). -/
def mkInsertStmt (now : Nat) (tableName : String) (record : Record) : SQLStmt :=
  let b := buildInsert now 1 record
  SQLStmt.mk
    ("INSERT INTO " ++ tableName ++ " (" ++ String.intercalate ", " b.1
      ++ ") VALUES (" ++ String.intercalate ", " b.2.1 ++ ")")
    b.2.2

/-- `insertRecords` of fixtures.go (lines 118-177): process the records
of one table inside the open transaction.  Returns the updated manager,
the statements successfully executed in the transaction so far, and
whether an insert failed (`true` = error returned). -/
def insertRecords (env : TxEnv) (now : Nat) (fm : FixtureManager) (txStmts : List SQLStmt)
    (tableName : String) : List Record → FixtureManager × List SQLStmt × Bool
  | [] => (fm, txStmts, false)
  | record :: rest =>
    let fm1 := trackRecord fm tableName record
    let stmt := mkInsertStmt now tableName record
    if env.execFails stmt then (fm1, txStmts, true)
    else insertRecords env now fm1 (txStmts ++ [stmt]) tableName rest

/-- The per-table loop of `LoadYAMLFixtures` (fixtures.go lines 103-107):
returns the offending table name if some insert failed. -/
def loadTables (env : TxEnv) (now : Nat) (fm : FixtureManager) (txStmts : List SQLStmt) :
    TableFixtures → FixtureManager × List SQLStmt × Option String
  | [] => (fm, txStmts, none)
  | (tableName, records) :: rest =>
    let r := insertRecords env now fm txStmts tableName records
    if r.2.2 then (r.1, r.2.1, some tableName)
    else loadTables env now r.1 r.2.1 rest

/-- The errors a load call can return. -/
inductive LoadError where
  | decodeError
  | beginError
  | insertError (table : String)
  | commitError
deriving DecidableEq

/-- `LoadYAMLFixtures` of fixtures.go (lines 80-115): decode, begin a
transaction, insert every table's records, commit; roll back (leaving
`DB` unchanged) on any failure. -/
def LoadYAMLFixtures (env : TxEnv) (now : Nat) (fm : FixtureManager) (db : DB) :
    Option TableFixtures → FixtureManager × DB × Option LoadError
  | none => (fm, db, some .decodeError)
  | some fixtures =>
    if env.beginOk then
      let r := loadTables env now fm [] fixtures
      match r.2.2 with
      | some t => (r.1, db, some (.insertError t))
      | none =>
        if env.commitOk then (r.1, DB.mk (db.committed ++ r.2.1), none)
        else (r.1, db, some .commitError)
    else (fm, db, some .beginError)

/-- The per-key inner loop of the cleanup WHERE builder (fixtures.go
lines 213-219): conditions, bound values, and the next parameter index. -/
def recordConds (record : Record) (n : Nat) : List String → List String × List Value × Nat
  | [] => ([], [], n)
  | pk :: rest =>
    match lookupKV record pk with
    | some v =>
      let r := recordConds record (n + 1) rest
      ((pk ++ " = " ++ placeholder n) :: r.1, v :: r.2.1, r.2.2)
    | none => recordConds record n rest

/-- The per-record loop of the cleanup WHERE builder (fixtures.go lines
209-225): OR-groups and the bound values, threading the parameter index. -/
def buildWhere (primaryKeys : List String) (n : Nat) : List Record → List String × List Value
  | [] => ([], [])
  | record :: rest =>
    let rc := recordConds record n primaryKeys
    let r := buildWhere primaryKeys rc.2.2 rest
    if rc.1.isEmpty then r
    else (("(" ++ String.intercalate " AND " rc.1 ++ ")") :: r.1, rc.2.1 ++ r.2)

/-- The DELETE statement for one table (fixtures.go lines 227-239). -/
def mkDeleteStmt (tableName : String) (conds : List String) (vals : List Value) : SQLStmt :=
  SQLStmt.mk ("DELETE FROM " ++ tableName ++ " WHERE " ++ String.intercalate " OR " conds) vals

/-- The per-table loop of `CleanupFixtures` (fixtures.go lines 197-241):
one DELETE per tracked table with a non-empty WHERE clause, stopping at
the first failing exec (returning the offending table). -/
def cleanupTables (env : TxEnv) (fm : FixtureManager) (txStmts : List SQLStmt) :
    List (String × List Record) → List SQLStmt × Option String
  | [] => (txStmts, none)
  | (tableName, records) :: rest =>
    if records.isEmpty then cleanupTables env fm txStmts rest
    else
      let w := buildWhere (getPrimaryKeys fm tableName) 1 records
      if w.1.isEmpty then cleanupTables env fm txStmts rest
      else
        let stmt := mkDeleteStmt tableName w.1 w.2
        if env.execFails stmt then (txStmts, some tableName)
        else cleanupTables env fm (txStmts ++ [stmt]) rest

/-- The errors a cleanup call can return. -/
inductive CleanupError where
  | beginError
  | deleteError (table : String)
  | commitError
deriving DecidableEq

/-- `CleanupFixtures` of fixtures.go (lines 180-252): no-op on an empty
tracking map; otherwise one transaction with one DELETE per tracked
table, and the tracking map is cleared only after a successful commit. -/
def CleanupFixtures (env : TxEnv) (fm : FixtureManager) (db : DB) :
    FixtureManager × DB × Option CleanupError :=
  if fm.insertedRecords.isEmpty then (fm, db, none)
  else if env.beginOk then
    let r := cleanupTables env fm [] fm.insertedRecords
    match r.2 with
    | some t => (fm, db, some (.deleteError t))
    | none =>
      if env.commitOk then (setInserted fm [], DB.mk (db.committed ++ r.1), none)
      else (fm, db, some .commitError)
  else (fm, db, some .beginError)

/-- `filepath.Ext`: the suffix beginning at the final dot, `""` if the
name has no dot (directory entry names contain no path separator). -/
def goExt (s : String) : String :=
  if s.toList.contains '.' then
    String.mk ('.' :: (s.toList.reverse.takeWhile (fun c => c ≠ '.')).reverse)
  else ""

/-- `isFixtureFile` of fixtures.go (lines 274-282). -/
def isFixtureFile (fm : FixtureManager) (filename : String) : Bool :=
  fm.fileExtensions.contains (goExt filename)

/-- One directory entry, carrying the decoded content its file would
yield (`none` = the file fails to read or decode). -/
structure DirEntry where
  name : String
  isDir : Bool
  content : Option TableFixtures
deriving DecidableEq

/-- The error of a directory load: the failing file's name and error. -/
inductive DirError where
  | fileError (name : String) (e : LoadError)
deriving DecidableEq

/-- `LoadFixturesFromDir` of fixtures.go (lines 255-271): load every
matching non-directory entry in order, stopping at the first failure.
`envOf` gives the transaction oracle of each file's load call. -/
def LoadFixturesFromDir (envOf : String → TxEnv) (now : Nat) (fm : FixtureManager) (db : DB) :
    List DirEntry → FixtureManager × DB × Option DirError
  | [] => (fm, db, none)
  | entry :: rest =>
    if !entry.isDir && isFixtureFile fm entry.name then
      let r := LoadYAMLFixtures (envOf entry.name) now fm db entry.content
      match r.2.2 with
      | some e => (r.1, r.2.1, some (.fileError entry.name e))
      | none => LoadFixturesFromDir envOf now r.1 r.2.1 rest
    else LoadFixturesFromDir envOf now fm db rest

/-! ### Helper lemmas on the association-list operations -/

theorem lookupKV_updateAppend_self (m : List (String × List Record)) (t : String) (pk : Record) :
    lookupKV (updateAppend m t pk) t = some ((lookupKV m t).getD [] ++ [pk]) := by
  induction m with
  | nil => simp [updateAppend, lookupKV]
  | cons hd tl ih =>
    obtain ⟨k, rs⟩ := hd
    by_cases h : k = t
    · subst h
      simp [updateAppend, lookupKV]
    · simp [updateAppend, lookupKV, h, ih]

theorem lookupKV_updateAppend_ne (m : List (String × List Record)) (t t2 : String) (pk : Record)
    (h : t2 ≠ t) : lookupKV (updateAppend m t pk) t2 = lookupKV m t2 := by
  have h2 : ¬ t = t2 := fun hh => h hh.symm
  induction m with
  | nil => simp [updateAppend, lookupKV, h2]
  | cons hd tl ih =>
    obtain ⟨k, rs⟩ := hd
    by_cases hk : k = t
    · subst hk
      simp [updateAppend, lookupKV, h2]
    · simp [updateAppend, lookupKV, hk, ih]

theorem lookupKV_mem {α : Type} (r : List (String × α)) (k : String) (v : α)
    (h : lookupKV r k = some v) : (k, v) ∈ r := by
  induction r with
  | nil => simp [lookupKV] at h
  | cons hd tl ih =>
    obtain ⟨k1, v1⟩ := hd
    by_cases hk : k1 = k
    · subst hk
      simp [lookupKV] at h
      simp [h]
    · simp [lookupKV, hk] at h
      exact List.mem_cons_of_mem _ (ih h)

/-! ### Helper lemmas on tracking -/

theorem trackRecord_fileExtensions (fm : FixtureManager) (t : String) (r : Record) :
    (trackRecord fm t r).fileExtensions = fm.fileExtensions := by
  by_cases h : (pkTuple (getPrimaryKeys fm t) r).isEmpty <;>
    simp [trackRecord, h, setInserted]

theorem trackRecord_tableConfigs (fm : FixtureManager) (t : String) (r : Record) :
    (trackRecord fm t r).tableConfigs = fm.tableConfigs := by
  by_cases h : (pkTuple (getPrimaryKeys fm t) r).isEmpty <;>
    simp [trackRecord, h, setInserted]

theorem getPrimaryKeys_trackRecord (fm : FixtureManager) (t t2 : String) (r : Record) :
    getPrimaryKeys (trackRecord fm t r) t2 = getPrimaryKeys fm t2 := by
  unfold getPrimaryKeys
  rw [trackRecord_tableConfigs]

theorem trackingOf_trackRecord_self (fm : FixtureManager) (t : String) (record : Record) :
    trackingOf (trackRecord fm t record) t
      = trackingOf fm t
        ++ (if (pkTuple (getPrimaryKeys fm t) record).isEmpty then []
            else [pkTuple (getPrimaryKeys fm t) record]) := by
  by_cases h : (pkTuple (getPrimaryKeys fm t) record).isEmpty
  · simp [trackRecord, h]
  · simp [trackRecord, h, trackingOf, setInserted, lookupKV_updateAppend_self]

theorem trackingOf_trackRecord_ne (fm : FixtureManager) (t t2 : String) (record : Record)
    (h : t2 ≠ t) : trackingOf (trackRecord fm t record) t2 = trackingOf fm t2 := by
  by_cases hemp : (pkTuple (getPrimaryKeys fm t) record).isEmpty
  · simp [trackRecord, hemp]
  · simp [trackRecord, hemp, trackingOf, setInserted, lookupKV_updateAppend_ne _ _ _ _ h]

theorem trackRecord_tracking_extends (fm : FixtureManager) (t t2 : String) (record : Record) :
    ∃ l, trackingOf (trackRecord fm t record) t2 = trackingOf fm t2 ++ l := by
  by_cases h : t2 = t
  · subst h
    exact ⟨_, trackingOf_trackRecord_self fm t2 record⟩
  · exact ⟨[], by simp [trackingOf_trackRecord_ne fm t t2 record h]⟩

/-- The number of records of one table a run attempts to insert: all of
them when every exec succeeds, otherwise up to and including the first
record whose INSERT fails. -/
def attemptedCount (env : TxEnv) (now : Nat) (tableName : String) : List Record → Nat
  | [] => 0
  | record :: rest =>
    if env.execFails (mkInsertStmt now tableName record) then 1
    else 1 + attemptedCount env now tableName rest

theorem insertRecords_tableConfigs (env : TxEnv) (now : Nat) (t : String) (records : List Record)
    (fm : FixtureManager) (ts : List SQLStmt) :
    ((insertRecords env now fm ts t records).1).tableConfigs = fm.tableConfigs := by
  induction records generalizing fm ts with
  | nil => rfl
  | cons record rest ih =>
    by_cases h : env.execFails (mkInsertStmt now t record)
    · simp [insertRecords, h, trackRecord_tableConfigs]
    · simp only [insertRecords, h, Bool.false_eq_true, if_false]
      rw [ih, trackRecord_tableConfigs]

theorem insertRecords_fileExtensions (env : TxEnv) (now : Nat) (t : String) (records : List Record)
    (fm : FixtureManager) (ts : List SQLStmt) :
    ((insertRecords env now fm ts t records).1).fileExtensions = fm.fileExtensions := by
  induction records generalizing fm ts with
  | nil => rfl
  | cons record rest ih =>
    by_cases h : env.execFails (mkInsertStmt now t record)
    · simp [insertRecords, h, trackRecord_fileExtensions]
    · simp only [insertRecords, h, Bool.false_eq_true, if_false]
      rw [ih, trackRecord_fileExtensions]

theorem insertRecords_tracking_self (env : TxEnv) (now : Nat) (t : String) (records : List Record)
    (fm : FixtureManager) (ts : List SQLStmt) :
    trackingOf (insertRecords env now fm ts t records).1 t
      = trackingOf fm t
        ++ ((records.take (attemptedCount env now t records)).map
              (pkTuple (getPrimaryKeys fm t))).filter (fun r => !r.isEmpty) := by
  induction records generalizing fm ts with
  | nil => simp [insertRecords, attemptedCount]
  | cons record rest ih =>
    by_cases h : env.execFails (mkInsertStmt now t record)
    · simp only [insertRecords, attemptedCount, h, if_true]
      rw [trackingOf_trackRecord_self]
      by_cases hemp : (pkTuple (getPrimaryKeys fm t) record).isEmpty
      · simp [hemp, List.filter_cons]
      · simp [hemp, List.filter_cons]
    · simp only [insertRecords, attemptedCount, h, Bool.false_eq_true, if_false]
      rw [ih, trackingOf_trackRecord_self, getPrimaryKeys_trackRecord]
      rw [Nat.add_comm 1 (attemptedCount env now t rest), List.take_succ_cons]
      by_cases hemp : (pkTuple (getPrimaryKeys fm t) record).isEmpty
      · simp [hemp, List.filter_cons]
      · simp [hemp, List.filter_cons]

theorem insertRecords_tracking_extends (env : TxEnv) (now : Nat) (t : String)
    (records : List Record) (fm : FixtureManager) (ts : List SQLStmt) (t2 : String) :
    ∃ l, trackingOf (insertRecords env now fm ts t records).1 t2 = trackingOf fm t2 ++ l := by
  induction records generalizing fm ts with
  | nil => exact ⟨[], by simp [insertRecords]⟩
  | cons record rest ih =>
    by_cases h : env.execFails (mkInsertStmt now t record)
    · simp only [insertRecords, h, if_true]
      exact trackRecord_tracking_extends fm t t2 record
    · simp only [insertRecords, h, Bool.false_eq_true, if_false]
      obtain ⟨l1, hl1⟩ := trackRecord_tracking_extends fm t t2 record
      obtain ⟨l2, hl2⟩ := ih (trackRecord fm t record) (ts ++ [mkInsertStmt now t record])
      exact ⟨l1 ++ l2, by rw [hl2, hl1, List.append_assoc]⟩

theorem loadTables_tracking_extends (env : TxEnv) (now : Nat) (tables : TableFixtures)
    (fm : FixtureManager) (ts : List SQLStmt) (t2 : String) :
    ∃ l, trackingOf (loadTables env now fm ts tables).1 t2 = trackingOf fm t2 ++ l := by
  induction tables generalizing fm ts with
  | nil => exact ⟨[], by simp [loadTables]⟩
  | cons hd rest ih =>
    obtain ⟨tableName, records⟩ := hd
    by_cases h : (insertRecords env now fm ts tableName records).2.2
    · simp only [loadTables, h, if_true]
      exact insertRecords_tracking_extends env now tableName records fm ts t2
    · simp only [loadTables, h, Bool.false_eq_true, if_false]
      obtain ⟨l1, hl1⟩ := insertRecords_tracking_extends env now tableName records fm ts t2
      obtain ⟨l2, hl2⟩ := ih (insertRecords env now fm ts tableName records).1
        (insertRecords env now fm ts tableName records).2.1
      exact ⟨l1 ++ l2, by rw [hl2, hl1, List.append_assoc]⟩

theorem loadTables_err_mem (env : TxEnv) (now : Nat) (tables : TableFixtures)
    (fm : FixtureManager) (ts : List SQLStmt) (t : String)
    (h : (loadTables env now fm ts tables).2.2 = some t) : t ∈ tables.map Prod.fst := by
  induction tables generalizing fm ts with
  | nil => simp [loadTables] at h
  | cons hd rest ih =>
    obtain ⟨tableName, records⟩ := hd
    by_cases hr : (insertRecords env now fm ts tableName records).2.2
    · simp only [loadTables, hr, if_true] at h
      simp at h
      simp [h]
    · simp only [loadTables, hr, Bool.false_eq_true, if_false] at h
      exact List.mem_cons_of_mem _ (ih _ _ h)

/-- Any failing load call leaves the database unchanged (the transaction
is rolled back or never begun). -/
theorem loadYAML_err_db (env : TxEnv) (now : Nat) (fm : FixtureManager) (db : DB)
    (c : Option TableFixtures)
    (h : (LoadYAMLFixtures env now fm db c).2.2.isSome = true) :
    (LoadYAMLFixtures env now fm db c).2.1 = db := by
  cases c with
  | none => rfl
  | some fixtures =>
    by_cases hb : env.beginOk
    · simp only [LoadYAMLFixtures, hb, if_true] at h ⊢
      cases he : (loadTables env now fm [] fixtures).2.2 with
      | some t => simp [he]
      | none =>
        by_cases hc : env.commitOk
        · simp [he, hc] at h
        · simp [he, hc]
    · simp [LoadYAMLFixtures, hb]

/-! ### Lemmas on insert construction -/

theorem buildInsert_cols (now : Nat) (r : Record) : ∀ i, (buildInsert now i r).1 = r.map Prod.fst := by
  induction r with
  | nil => intro i; rfl
  | cons hd tl ih => intro i; simp [buildInsert, ih]

theorem buildInsert_vals (now : Nat) (r : Record) :
    ∀ i, (buildInsert now i r).2.2 = r.map (fun p => substValue now p.2) := by
  induction r with
  | nil => intro i; rfl
  | cons hd tl ih => intro i; simp [buildInsert, ih]

/-- The placeholder list `$i, $(i+1), …` of a given length. -/
def phList : Nat → Nat → List String
  | _, 0 => []
  | i, n + 1 => placeholder i :: phList (i + 1) n

theorem buildInsert_phs (now : Nat) (r : Record) :
    ∀ i, (buildInsert now i r).2.1 = phList i r.length := by
  induction r with
  | nil => intro i; rfl
  | cons hd tl ih => intro i; simp [buildInsert, phList, ih]

theorem substValue_ne_token (now : Nat) (v : Value) : substValue now v ≠ Value.str "NOW()" := by
  cases v with
  | str s =>
    by_cases h : s = "NOW()"
    · simp [substValue, h]
    · simp [substValue, h]
  | int n => simp [substValue]
  | bool b => simp [substValue]
  | time t => simp [substValue]
  | null => simp [substValue]

theorem pkTuple_nil_of_absent (pks : List String) (record : Record)
    (h : ∀ pk ∈ pks, lookupKV record pk = none) : pkTuple pks record = [] := by
  have aux : ∀ (l : List String) (acc : Record), (∀ pk ∈ l, lookupKV record pk = none) →
      l.foldl
        (fun pkValues pk =>
          match lookupKV record pk with
          | some v => insertKV pkValues pk v
          | none => pkValues)
        acc = acc := by
    intro l
    induction l with
    | nil => intro acc _; rfl
    | cons pk rest ih =>
      intro acc hl
      simp only [List.foldl_cons, hl pk (List.mem_cons_self pk rest)]
      exact ih acc (fun p hp => hl p (List.mem_cons_of_mem _ hp))
  exact aux pks [] h

/-! ### Claims -/

/-- C1: if `CleanupFixtures` returns an error — a failing begin, a
failing per-table DELETE, or a failing final commit — the manager, and
in particular the tracking map `insertedRecords`, is exactly what it was
before the call (it is cleared only after a successful commit), so an
immediately retried cleanup attempts the same deletes. -/
theorem c1_cleanup_error_leaves_tracking (env : TxEnv) (fm : FixtureManager) (db : DB)
    (h : (CleanupFixtures env fm db).2.2 ≠ none) :
    (CleanupFixtures env fm db).1 = fm := by
  by_cases hemp : fm.insertedRecords.isEmpty
  · simp [CleanupFixtures, hemp] at h
  · by_cases hb : env.beginOk
    · cases he : (cleanupTables env fm [] fm.insertedRecords).2 with
      | some t => simp [CleanupFixtures, hemp, hb, he]
      | none =>
        by_cases hc : env.commitOk
        · simp [CleanupFixtures, hemp, hb, he, hc] at h
        · simp [CleanupFixtures, hemp, hb, he, hc]
    · simp [CleanupFixtures, hemp, hb]

theorem c1_witness :
    (CleanupFixtures (TxEnv.mk true (fun _ => true) true)
        (FixtureManager.mk [] [] [("users", [[("id", Value.int 1)]])]) (DB.mk [])).1
      = FixtureManager.mk [] [] [("users", [[("id", Value.int 1)]])] :=
  c1_cleanup_error_leaves_tracking _ _ _ (by decide)

/-- C2: each fixture file is loaded in a single transaction: every
failing call leaves the database unchanged (rollback, no partial
commit); a failing insert is reported as an `insertError` naming a table
of that file; any failing insert makes the call fail with that error;
and when begin, every insert and commit succeed, the call succeeds and
commits exactly the file's insert statements. -/
theorem c2_load_file_transactional (env : TxEnv) (now : Nat) (fm : FixtureManager) (db : DB)
    (fixtures : TableFixtures) :
    ((LoadYAMLFixtures env now fm db (some fixtures)).2.2.isSome = true →
      (LoadYAMLFixtures env now fm db (some fixtures)).2.1 = db)
    ∧ (∀ t, (LoadYAMLFixtures env now fm db (some fixtures)).2.2
          = some (LoadError.insertError t) → t ∈ fixtures.map Prod.fst)
    ∧ (env.beginOk = true → ∀ t, (loadTables env now fm [] fixtures).2.2 = some t →
        (LoadYAMLFixtures env now fm db (some fixtures)).2.2 = some (LoadError.insertError t))
    ∧ (env.beginOk = true → env.commitOk = true →
        (loadTables env now fm [] fixtures).2.2 = none →
        LoadYAMLFixtures env now fm db (some fixtures)
          = ((loadTables env now fm [] fixtures).1,
             DB.mk (db.committed ++ (loadTables env now fm [] fixtures).2.1), none)) := by
  refine ⟨loadYAML_err_db env now fm db (some fixtures), ?_, ?_, ?_⟩
  · intro t ht
    by_cases hb : env.beginOk
    · cases he : (loadTables env now fm [] fixtures).2.2 with
      | some t2 =>
        simp only [LoadYAMLFixtures, hb, if_true, he] at ht
        simp at ht
        exact ht ▸ loadTables_err_mem env now fixtures fm [] t2 he
      | none =>
        by_cases hc : env.commitOk
        · simp [LoadYAMLFixtures, hb, he, hc] at ht
        · simp [LoadYAMLFixtures, hb, he, hc] at ht
    · simp [LoadYAMLFixtures, hb] at ht
  · intro hb t ht
    simp [LoadYAMLFixtures, hb, ht]
  · intro hb hc hn
    simp [LoadYAMLFixtures, hb, hn, hc]

theorem c2_witness :
    (LoadYAMLFixtures (TxEnv.mk true (fun _ => true) true) 0 (FixtureManager.mk [] [] [])
        (DB.mk []) (some [("users", [[("id", Value.int 1)]])])).2.1 = DB.mk [] :=
  (c2_load_file_transactional _ _ _ _ _).1 (by decide)

/-- C3: a record's primary-key tuple is appended to the tracking map the
moment its INSERT is about to be issued — after `insertRecords` the
tracking of the table equals the old tracking plus the non-empty tuples
of exactly the attempted records, in processing order, the record whose
insert failed included — and a failing load (rolled back or not begun)
never removes tracking entries: for every table, the old tracking is an
initial segment of the new one. -/
theorem c3_tracking_appended_before_exec (env : TxEnv) (now : Nat) (fm : FixtureManager)
    (ts : List SQLStmt) (t : String) (records : List Record) (db : DB)
    (fixtures : TableFixtures) :
    (trackingOf (insertRecords env now fm ts t records).1 t
      = trackingOf fm t
        ++ ((records.take (attemptedCount env now t records)).map
              (pkTuple (getPrimaryKeys fm t))).filter (fun r => !r.isEmpty))
    ∧ (∀ fm2 db2 e, LoadYAMLFixtures env now fm db (some fixtures) = (fm2, db2, some e) →
        ∀ t2, ∃ l, trackingOf fm2 t2 = trackingOf fm t2 ++ l) := by
  refine ⟨insertRecords_tracking_self env now t records fm ts, ?_⟩
  intro fm2 db2 e h t2
  by_cases hb : env.beginOk
  · cases he : (loadTables env now fm [] fixtures).2.2 with
    | some t3 =>
      simp only [LoadYAMLFixtures, hb, if_true, he, Prod.mk.injEq] at h
      obtain ⟨h1, -, -⟩ := h
      rw [← h1]
      exact loadTables_tracking_extends env now fixtures fm [] t2
    | none =>
      by_cases hc : env.commitOk
      · simp [LoadYAMLFixtures, hb, he, hc] at h
      · simp only [LoadYAMLFixtures, hb, if_true, he, hc, Bool.false_eq_true, if_false,
          Prod.mk.injEq] at h
        obtain ⟨h1, -, -⟩ := h
        rw [← h1]
        exact loadTables_tracking_extends env now fixtures fm [] t2
  · simp only [LoadYAMLFixtures, hb, Bool.false_eq_true, if_false, Prod.mk.injEq] at h
    obtain ⟨h1, -, -⟩ := h
    exact ⟨[], by rw [← h1, List.append_nil]⟩

theorem c3_witness :
    ∃ l, trackingOf (FixtureManager.mk [] [] [("users", [[("id", Value.int 1)]])]) "users"
        = trackingOf (FixtureManager.mk [] [] []) "users" ++ l :=
  (c3_tracking_appended_before_exec (TxEnv.mk true (fun _ => true) true) 0
      (FixtureManager.mk [] [] []) [] "users" [] (DB.mk [])
      [("users", [[("id", Value.int 1)]])]).2
    (FixtureManager.mk [] [] [("users", [[("id", Value.int 1)]])]) (DB.mk [])
    (LoadError.insertError "users") (by decide) "users"

/-- C5: `CleanupFixtures` on an empty tracking map succeeds trivially —
independently of the transaction oracle, so no transaction is begun and
no DELETE issued — and after any successful cleanup an immediately
following cleanup call also succeeds as a no-op: cleanup is idempotent. -/
theorem c5_cleanup_empty_noop_idempotent (env env2 : TxEnv) (fm : FixtureManager) (db : DB) :
    (fm.insertedRecords = [] → CleanupFixtures env fm db = (fm, db, none))
    ∧ (∀ fm2 db2, CleanupFixtures env fm db = (fm2, db2, none) →
        CleanupFixtures env2 fm2 db2 = (fm2, db2, none)) := by
  constructor
  · intro h
    simp [CleanupFixtures, h]
  · intro fm2 db2 h
    have h2 : fm2.insertedRecords = [] := by
      by_cases hemp : fm.insertedRecords.isEmpty
      · simp only [CleanupFixtures, hemp, if_true, Prod.mk.injEq] at h
        obtain ⟨h1, -, -⟩ := h
        rw [← h1]
        exact List.isEmpty_iff.mp hemp
      · by_cases hb : env.beginOk
        · cases he : (cleanupTables env fm [] fm.insertedRecords).2 with
          | some t => simp [CleanupFixtures, hemp, hb, he] at h
          | none =>
            by_cases hc : env.commitOk
            · simp only [CleanupFixtures, hemp, Bool.false_eq_true, if_false, hb, if_true,
                he, hc, Prod.mk.injEq] at h
              obtain ⟨h1, -, -⟩ := h
              rw [← h1]
              rfl
            · simp [CleanupFixtures, hemp, hb, he, hc] at h
        · simp [CleanupFixtures, hemp, hb] at h
    simp [CleanupFixtures, h2]

theorem c5_witness :
    CleanupFixtures (TxEnv.mk false (fun _ => true) false) (FixtureManager.mk [] [] [])
        (DB.mk []) = (FixtureManager.mk [] [] [], DB.mk [], none) :=
  (c5_cleanup_empty_noop_idempotent (TxEnv.mk false (fun _ => true) false)
      (TxEnv.mk false (fun _ => true) false) (FixtureManager.mk [] [] []) (DB.mk [])).1 rfl

/-- C6: the bound values of a built INSERT are the record's values with
exactly one transformation applied: a string exactly equal to the
sentinel `"NOW()"` becomes the current time, every other value is bound
unchanged; in particular the literal token is never among the bound
values. -/
theorem c6_now_substitution (now : Nat) (t : String) (record : Record) :
    (mkInsertStmt now t record).args = record.map (fun p => substValue now p.2)
    ∧ substValue now (Value.str "NOW()") = Value.time now
    ∧ (∀ v, v ≠ Value.str "NOW()" → substValue now v = v)
    ∧ Value.str "NOW()" ∉ (mkInsertStmt now t record).args := by
  have hargs : (mkInsertStmt now t record).args = record.map (fun p => substValue now p.2) :=
    buildInsert_vals now record 1
  refine ⟨hargs, by simp [substValue], ?_, ?_⟩
  · intro v hv
    cases v with
    | str s =>
      have hs : s ≠ "NOW()" := fun hh => hv (by rw [hh])
      simp [substValue, hs]
    | int n => rfl
    | bool b => rfl
    | time t2 => rfl
    | null => rfl
  · rw [hargs]
    intro hmem
    obtain ⟨p, -, hp⟩ := List.mem_map.mp hmem
    exact substValue_ne_token now p.2 hp

theorem c6_witness :
    substValue 7 (Value.str "now()") = Value.str "now()" :=
  (c6_now_substitution 7 "users" []).2.2.1 (Value.str "now()") (by decide)

/-- C7 counterexample: the claim as stated fails on the code — the
columns of the INSERT are taken by ranging over a Go map, whose
iteration order is unspecified and randomized, so two runs over the same
record (the same map, observed in two different iteration orders, here
two key-disjoint permutations of each other) can build different column
orders. -/
theorem c7_counterexample :
    ([("a", Value.int 1), ("b", Value.int 2)] : Record).Perm
        [("b", Value.int 2), ("a", Value.int 1)]
    ∧ (([("a", Value.int 1), ("b", Value.int 2)] : Record).map Prod.fst).Nodup
    ∧ (buildInsert 0 1 [("a", Value.int 1), ("b", Value.int 2)]).1
        ≠ (buildInsert 0 1 [("b", Value.int 2), ("a", Value.int 1)]).1 :=
  ⟨List.Perm.swap _ _ _, by decide, by decide⟩

/-- C7 (amended): across two runs over the same record — two iteration
orders of the same map, i.e. permutations of each other — the list of
(column, bound value) pairs of the built INSERT is a permutation, so the
i-th value is always bound to the i-th column and the pair multiset is
stable, and the placeholder list is identical; the column order itself
is not stable across runs. -/
theorem c7_insert_pairs_stable (now : Nat) (r1 r2 : Record) (h : r1.Perm r2) :
    ((buildInsert now 1 r1).1.zip (buildInsert now 1 r1).2.2).Perm
      ((buildInsert now 1 r2).1.zip (buildInsert now 1 r2).2.2)
    ∧ (buildInsert now 1 r1).2.1 = (buildInsert now 1 r2).2.1 := by
  constructor
  · rw [buildInsert_cols, buildInsert_vals, buildInsert_cols, buildInsert_vals,
      List.zip_map', List.zip_map']
    exact h.map _
  · rw [buildInsert_phs, buildInsert_phs, h.length_eq]

theorem c7_witness :
    ((buildInsert 0 1 [("a", Value.int 1), ("b", Value.int 2)]).1.zip
        (buildInsert 0 1 [("a", Value.int 1), ("b", Value.int 2)]).2.2).Perm
      ((buildInsert 0 1 [("b", Value.int 2), ("a", Value.int 1)]).1.zip
        (buildInsert 0 1 [("b", Value.int 2), ("a", Value.int 1)]).2.2) :=
  (c7_insert_pairs_stable 0 _ _ (List.Perm.swap _ _ _)).1

/-- C10: a record containing none of its table's configured primary-key
columns (for instance a table configured with an empty key list, or a
record lacking the default `id` column) is still inserted, but no
tracking entry is appended for it — the manager state is unchanged — so
a later cleanup issues no DELETE targeting that row. -/
theorem c10_no_pk_no_tracking (env : TxEnv) (now : Nat) (fm : FixtureManager)
    (ts : List SQLStmt) (t : String) (record : Record)
    (h : ∀ pk ∈ getPrimaryKeys fm t, lookupKV record pk = none) :
    insertRecords env now fm ts t [record]
      = (fm,
         if env.execFails (mkInsertStmt now t record) then ts
         else ts ++ [mkInsertStmt now t record],
         env.execFails (mkInsertStmt now t record)) := by
  have htrack : trackRecord fm t record = fm := by
    simp [trackRecord, pkTuple_nil_of_absent _ _ h]
  by_cases hf : env.execFails (mkInsertStmt now t record)
  · simp [insertRecords, hf, htrack]
  · simp [insertRecords, hf, htrack]

theorem c10_witness :
    insertRecords (TxEnv.mk true (fun _ => false) true) 0 (FixtureManager.mk [] [] []) []
        "users" [[("name", Value.str "x")]]
      = (FixtureManager.mk [] [] [],
         [mkInsertStmt 0 "users" [("name", Value.str "x")]], false) :=
  c10_no_pk_no_tracking _ _ _ _ _ _ (by decide)

/-! ### The spec-described cleanup DELETE (for the C4 refinement) -/

/-- Spec description, one group: one `column = $i` condition per tuple
entry, over exactly the tuple's columns in tuple order, with sequential
parameter indices. -/
def condsSpecP (n : Nat) : List String → List String
  | [] => []
  | c :: rest => (c ++ " = " ++ placeholder n) :: condsSpecP (n + 1) rest

/-- Spec description of a table's WHERE content: one AND-combined group
per tracked key-tuple, groups joined with OR in tuple-list order, values
bound positionally in the same order. -/
def whereSpec (n : Nat) : List Record → List String × List Value
  | [] => ([], [])
  | r :: rest =>
    let w := whereSpec (n + r.length) rest
    (("(" ++ String.intercalate " AND " (condsSpecP n (r.map Prod.fst)) ++ ")") :: w.1,
     r.map Prod.snd ++ w.2)

/-- The spec-described DELETE statement for one tracked table. -/
def deleteStmtSpec (tableName : String) (records : List Record) : SQLStmt :=
  mkDeleteStmt tableName (whereSpec 1 records).1 (whereSpec 1 records).2

theorem recordConds_eq (record : Record) : ∀ (pks : List String) (n : Nat),
    recordConds record n pks
      = (condsSpecP n (pks.filter (fun pk => (lookupKV record pk).isSome)),
         pks.filterMap (lookupKV record),
         n + (pks.filter (fun pk => (lookupKV record pk).isSome)).length) := by
  intro pks
  induction pks with
  | nil => intro n; simp [recordConds, condsSpecP]
  | cons pk rest ih =>
    intro n
    cases hl : lookupKV record pk with
    | some v =>
      simp only [recordConds, hl, ih (n + 1), List.filter_cons, List.filterMap_cons,
        Option.isSome_some, if_true, condsSpecP, List.length_cons, Prod.mk.injEq]
      refine ⟨trivial, trivial, by omega⟩
    | none =>
      simp only [recordConds, hl, ih n, List.filter_cons, List.filterMap_cons,
        Option.isSome_none, Bool.false_eq_true, if_false]

theorem filterMap_congr_local {α : Type} (f g : String → Option α) :
    ∀ l : List String, (∀ x ∈ l, f x = g x) → l.filterMap f = l.filterMap g := by
  intro l
  induction l with
  | nil => intro _; rfl
  | cons x rest ih =>
    intro h
    simp only [List.filterMap_cons, h x (List.mem_cons_self x rest),
      ih (fun y hy => h y (List.mem_cons_of_mem _ hy))]

theorem filterMap_filter_isSome {α : Type} (f : String → Option α) :
    ∀ l : List String, l.filterMap f = (l.filter (fun x => (f x).isSome)).filterMap f := by
  intro l
  induction l with
  | nil => rfl
  | cons x rest ih =>
    cases hx : f x with
    | some v => simp [List.filter_cons, List.filterMap_cons, hx, ih]
    | none => simp [List.filter_cons, List.filterMap_cons, hx, ih]

theorem filterMap_lookup_self (r : Record) (h : (r.map Prod.fst).Nodup) :
    (r.map Prod.fst).filterMap (lookupKV r) = r.map Prod.snd := by
  induction r with
  | nil => rfl
  | cons hd tl ih =>
    obtain ⟨k, v⟩ := hd
    simp only [List.map_cons, List.nodup_cons] at h
    obtain ⟨hk, htl⟩ := h
    have hhead : lookupKV ((k, v) :: tl) k = some v := by simp [lookupKV]
    rw [List.map_cons, List.map_cons, List.filterMap_cons, hhead]
    have hcongr : (tl.map Prod.fst).filterMap (lookupKV ((k, v) :: tl))
        = (tl.map Prod.fst).filterMap (lookupKV tl) := by
      apply filterMap_congr_local
      intro x hx
      have hxk : ¬ k = x := fun hh => hk (hh ▸ hx)
      simp [lookupKV, hxk]
    rw [hcongr, ih htl]

theorem buildWhere_eq_whereSpec (pks : List String) (hnd : pks.Nodup) :
    ∀ (records : List Record) (n : Nat),
    (∀ r ∈ records, r ≠ [] ∧ r.map Prod.fst
      = pks.filter (fun pk => (lookupKV r pk).isSome)) →
    buildWhere pks n records = whereSpec n records := by
  intro records
  induction records with
  | nil => intro n _; rfl
  | cons r rest ih =>
    intro n hr
    obtain ⟨hne, hkeys⟩ := hr r (List.mem_cons_self r rest)
    have hrest := fun x hx => hr x (List.mem_cons_of_mem _ hx)
    have hkeysnd : (r.map Prod.fst).Nodup := hkeys ▸ hnd.filter _
    have h1 : recordConds r n pks = (condsSpecP n (r.map Prod.fst), r.map Prod.snd,
        n + r.length) := by
      rw [recordConds_eq, ← hkeys]
      rw [filterMap_filter_isSome, ← hkeys, filterMap_lookup_self r hkeysnd]
      simp
    have hcne : (condsSpecP n (r.map Prod.fst)).isEmpty = false := by
      cases hr2 : r with
      | nil => exact absurd hr2 hne
      | cons a b => simp [condsSpecP]
    simp only [buildWhere, h1, hcne, Bool.false_eq_true, if_false]
    rw [ih (n + r.length) hrest]
    simp [whereSpec]

theorem cleanupTables_ok (env : TxEnv) (fm : FixtureManager)
    (hexec : ∀ s, env.execFails s = false) :
    ∀ (tables : List (String × List Record)) (ts : List SQLStmt),
    (∀ p ∈ tables, p.2 ≠ [] ∧ (getPrimaryKeys fm p.1).Nodup ∧
      ∀ r ∈ p.2, r ≠ [] ∧ r.map Prod.fst
        = (getPrimaryKeys fm p.1).filter (fun pk => (lookupKV r pk).isSome)) →
    cleanupTables env fm ts tables
      = (ts ++ tables.map (fun p => deleteStmtSpec p.1 p.2), none) := by
  intro tables
  induction tables with
  | nil => intro ts _; simp [cleanupTables]
  | cons p rest ih =>
    obtain ⟨t, rs⟩ := p
    intro ts h
    obtain ⟨hne, hnd, hr⟩ := h (t, rs) (List.mem_cons_self _ _)
    have hrest := fun q hq => h q (List.mem_cons_of_mem _ hq)
    have hrsne : rs.isEmpty = false := by
      cases rs with
      | nil => exact absurd rfl hne
      | cons a b => rfl
    have hw : buildWhere (getPrimaryKeys fm t) 1 rs = whereSpec 1 rs :=
      buildWhere_eq_whereSpec _ hnd rs 1 hr
    have hwne : (whereSpec 1 rs).1.isEmpty = false := by
      cases hrs : rs with
      | nil => exact absurd hrs hne
      | cons a b => simp [whereSpec]
    simp only [cleanupTables, hrsne, Bool.false_eq_true, if_false, hw, hwne, hexec]
    rw [ih (ts ++ [mkDeleteStmt t (whereSpec 1 rs).1 (whereSpec 1 rs).2]) hrest]
    simp [deleteStmtSpec]

/-- C4: on a non-empty, well-formed tracking map — every tracked table
has at least one tuple, the table's configured key columns are
duplicate-free, and every tuple is non-empty with exactly the configured
key columns present in it as its columns — a cleanup whose begin, execs
and commit all succeed commits exactly one DELETE per tracked table,
all inside the single shared transaction, and each table's DELETE is the
spec-described statement: the WHERE clause OR-combines one AND-combined
group of `column = $i` conditions per tracked key-tuple, over exactly
the tuple's key columns, with the values bound as positional parameters
in the same order. -/
theorem c4_cleanup_delete_structure (env : TxEnv) (fm : FixtureManager) (db : DB)
    (hne : fm.insertedRecords ≠ [])
    (hb : env.beginOk = true) (hc : env.commitOk = true)
    (hexec : ∀ s, env.execFails s = false)
    (hwf : ∀ p ∈ fm.insertedRecords, p.2 ≠ [] ∧ (getPrimaryKeys fm p.1).Nodup ∧
      ∀ r ∈ p.2, r ≠ [] ∧ r.map Prod.fst
        = (getPrimaryKeys fm p.1).filter (fun pk => (lookupKV r pk).isSome)) :
    CleanupFixtures env fm db
      = (setInserted fm [],
         DB.mk (db.committed ++ fm.insertedRecords.map (fun p => deleteStmtSpec p.1 p.2)),
         none) := by
  have hemp : fm.insertedRecords.isEmpty = false := by
    cases h : fm.insertedRecords with
    | nil => exact absurd h hne
    | cons a b => rfl
  simp only [CleanupFixtures, hemp, Bool.false_eq_true, if_false, hb, if_true]
  rw [cleanupTables_ok env fm hexec fm.insertedRecords [] hwf]
  simp [hc]

theorem c4_witness :
    CleanupFixtures (TxEnv.mk true (fun _ => false) true)
        (FixtureManager.mk [] [("m", ["u", "o"])]
          [("m", [[("u", Value.int 1), ("o", Value.int 2)],
                  [("u", Value.int 1), ("o", Value.int 3)]])])
        (DB.mk [])
      = (setInserted
           (FixtureManager.mk [] [("m", ["u", "o"])]
             [("m", [[("u", Value.int 1), ("o", Value.int 2)],
                     [("u", Value.int 1), ("o", Value.int 3)]])]) [],
         DB.mk
           ((DB.mk []).committed
             ++ (FixtureManager.mk [] [("m", ["u", "o"])]
                  [("m", [[("u", Value.int 1), ("o", Value.int 2)],
                          [("u", Value.int 1), ("o", Value.int 3)]])]).insertedRecords.map
                 (fun p => deleteStmtSpec p.1 p.2)),
         none) :=
  c4_cleanup_delete_structure _ _ _ (by decide) rfl rfl (fun _ => rfl) (by decide)

theorem loadDir_append (envOf : String → TxEnv) (now : Nat) :
    ∀ (xs ys : List DirEntry) (fm : FixtureManager) (db : DB),
    (LoadFixturesFromDir envOf now fm db xs).2.2 = none →
    LoadFixturesFromDir envOf now fm db (xs ++ ys)
      = LoadFixturesFromDir envOf now (LoadFixturesFromDir envOf now fm db xs).1
          (LoadFixturesFromDir envOf now fm db xs).2.1 ys := by
  intro xs
  induction xs with
  | nil => intro ys fm db _; rfl
  | cons entry rest ih =>
    intro ys fm db h
    by_cases hcond : (!entry.isDir && isFixtureFile fm entry.name) = true
    · cases he : (LoadYAMLFixtures (envOf entry.name) now fm db entry.content).2.2 with
      | some e =>
        simp only [LoadFixturesFromDir, hcond, if_true, he] at h
        exact absurd h (by simp)
      | none =>
        simp only [List.cons_append, LoadFixturesFromDir, hcond, if_true, he] at h ⊢
        exact ih ys _ _ h
    · simp only [List.cons_append, LoadFixturesFromDir, hcond, Bool.false_eq_true,
        if_false] at h ⊢
      exact ih ys fm db h

/-- C8: directory loading stops at the first failing file: after a
prefix of entries loads cleanly, a matching entry whose load fails makes
`LoadFixturesFromDir` return that file's error at once — the result does
not depend on the entries after it, so no later file is attempted — and
the failing file's load leaves the database exactly as the earlier
files' commits left it (they stay committed and are not undone). -/
theorem c8_dir_stops_first_failure (envOf : String → TxEnv) (now : Nat) (fm : FixtureManager)
    (db : DB) (pre : List DirEntry) (entry : DirEntry) (post : List DirEntry)
    (fm1 : FixtureManager) (db1 : DB) (fm2 : FixtureManager) (db2 : DB) (e : LoadError)
    (hpre : LoadFixturesFromDir envOf now fm db pre = (fm1, db1, none))
    (hdir : entry.isDir = false)
    (hfix : isFixtureFile fm1 entry.name = true)
    (hload : LoadYAMLFixtures (envOf entry.name) now fm1 db1 entry.content
      = (fm2, db2, some e)) :
    LoadFixturesFromDir envOf now fm db (pre ++ entry :: post)
      = (fm2, db2, some (DirError.fileError entry.name e))
    ∧ db2 = db1 := by
  constructor
  · rw [loadDir_append envOf now pre (entry :: post) fm db (by rw [hpre])]
    rw [hpre]
    simp only [LoadFixturesFromDir, hdir, Bool.not_false, hfix, Bool.true_and, if_true, hload]
  · have h2 := loadYAML_err_db (envOf entry.name) now fm1 db1 entry.content
      (by rw [hload]; rfl)
    rw [hload] at h2
    exact h2

theorem c8_witness :
    LoadFixturesFromDir (fun _ => TxEnv.mk true (fun _ => false) true) 0
        (FixtureManager.mk [".yml", ".yaml"] [] []) (DB.mk [])
        [DirEntry.mk "a.yml" false none]
      = (FixtureManager.mk [".yml", ".yaml"] [] [], DB.mk [],
         some (DirError.fileError "a.yml" LoadError.decodeError))
    ∧ DB.mk [] = DB.mk [] :=
  c8_dir_stops_first_failure (fun _ => TxEnv.mk true (fun _ => false) true) 0
    (FixtureManager.mk [".yml", ".yaml"] [] []) (DB.mk []) []
    (DirEntry.mk "a.yml" false none) []
    (FixtureManager.mk [".yml", ".yaml"] [] []) (DB.mk [])
    (FixtureManager.mk [".yml", ".yaml"] [] []) (DB.mk []) LoadError.decodeError
    rfl rfl (by decide) rfl

/-- C9: the tracked key-tuple stores the raw record values, taken before
any value transformation: loading one record whose `id` value is the
literal string "NOW()" succeeds and binds the substituted timestamp in
the INSERT — never the literal token — yet the tracking map retains the
literal token, and the subsequent cleanup binds that literal token in
the DELETE condition it issues for the row. -/
theorem c9_tracking_raw_values (env env2 : TxEnv) (now : Nat) (fm : FixtureManager) (db : DB)
    (t : String) (record : Record)
    (hcfg : fm.tableConfigs = []) (hemp : fm.insertedRecords = [])
    (hrec : lookupKV record "id" = some (Value.str "NOW()"))
    (hb : env.beginOk = true) (hc : env.commitOk = true)
    (hexec : ∀ s, env.execFails s = false)
    (hb2 : env2.beginOk = true) (hc2 : env2.commitOk = true)
    (hexec2 : ∀ s, env2.execFails s = false) :
    LoadYAMLFixtures env now fm db (some [(t, [record])])
      = (setInserted fm [(t, [[("id", Value.str "NOW()")]])],
         DB.mk (db.committed ++ [mkInsertStmt now t record]), none)
    ∧ Value.time now ∈ (mkInsertStmt now t record).args
    ∧ Value.str "NOW()" ∉ (mkInsertStmt now t record).args
    ∧ CleanupFixtures env2 (setInserted fm [(t, [[("id", Value.str "NOW()")]])])
        (DB.mk (db.committed ++ [mkInsertStmt now t record]))
      = (setInserted fm [],
         DB.mk ((db.committed ++ [mkInsertStmt now t record])
           ++ [mkDeleteStmt t ["(id = $1)"] [Value.str "NOW()"]]),
         none) := by
  have hpks : getPrimaryKeys fm t = ["id"] := by
    simp [getPrimaryKeys, hcfg, lookupKV]
  have htuple : pkTuple ["id"] record = [("id", Value.str "NOW()")] := by
    simp [pkTuple, hrec, insertKV]
  have htr : trackRecord fm t record = setInserted fm [(t, [[("id", Value.str "NOW()")]])] := by
    simp [trackRecord, hpks, htuple, hemp, updateAppend, setInserted]
  refine ⟨?_, ?_, ?_, ?_⟩
  · simp [LoadYAMLFixtures, hb, hc, loadTables, insertRecords, hexec, htr]
  · rw [show (mkInsertStmt now t record).args = record.map (fun p => substValue now p.2) from
      buildInsert_vals now record 1]
    exact List.mem_map.mpr
      ⟨("id", Value.str "NOW()"), lookupKV_mem _ _ _ hrec, by simp [substValue]⟩
  · rw [show (mkInsertStmt now t record).args = record.map (fun p => substValue now p.2) from
      buildInsert_vals now record 1]
    intro hmem
    obtain ⟨p, -, hp⟩ := List.mem_map.mp hmem
    exact substValue_ne_token now p.2 hp
  · simp [CleanupFixtures, hb2, hc2, hexec2, cleanupTables, getPrimaryKeys, hcfg, buildWhere,
      recordConds, lookupKV, placeholder, mkDeleteStmt, setInserted]
    congr 1

theorem c9_witness :
    Value.time 5 ∈ (mkInsertStmt 5 "users" [("id", Value.str "NOW()"),
        ("name", Value.str "a")]).args :=
  (c9_tracking_raw_values (TxEnv.mk true (fun _ => false) true)
      (TxEnv.mk true (fun _ => false) true) 5 (FixtureManager.mk [".yml"] [] []) (DB.mk [])
      "users" [("id", Value.str "NOW()"), ("name", Value.str "a")]
      rfl rfl rfl rfl rfl (fun _ => rfl) rfl rfl (fun _ => rfl)).2.1

end Testkit
